import Mathlib

/-!
Verification development for the ACE playbook engine.

This file gives a shallow embedding of the playbook retrieval-and-update
engine (`playbook_manager.py`, `curator_agent.py`, `ace_pipeline.py`) and
proves or refutes the frozen specification claims about it.

Modelling conventions:
- Bullet ids are generated in the source as `"ctx-" + uuid4()[:8]`; the model
  draws them from a fresh-counter (`Store.nextId`), i.e. uuid collisions are
  assumed absent (they are external randomness).
- The embedding provider plus the L2 normalization step (both computed with
  floating point over an external network call) are folded into one abstract
  parameter `emb : String → List ℚ` giving the normalized vector stored in
  the FAISS index.  The FAISS `IndexFlatIP` is modelled as the list of stored
  vectors; its `search` computes all inner products and returns the top-k
  pairs (score, index) sorted by descending score.
- `deduplicate`'s floating-point cosine-similarity test
  (`norm_i > 0 and norm_j > 0 and dot/(norm_i*norm_j) >= threshold`) is
  abstracted into a predicate `close : String → String → Bool` on the two
  bullets' contents; theorems about `deduplicate` quantify over every such
  predicate, hence over every threshold and embedding.
- File persistence (`save_playbook`, delta logs) and `print` calls are
  side effects outside the store state and are dropped.
- Python exceptions are modelled with `Option`: `none` is a raised exception.
-/

namespace ACE

/-- A playbook bullet (`Bullet` dataclass in `playbook_manager.py`); the
timestamp fields `created_at`/`last_used` are wall-clock strings and are not
modelled. -/
structure Bullet where
  id : Nat
  helpful : Nat
  harmful : Nat
  content : String
  section' : String
  deriving Repr, DecidableEq, Inhabited

/-- The mutable state of `PlaybookManager`: the bullet list, the FAISS index
(the list of stored normalized vectors), the `bullet_id_to_index` dict
(association list with Python-dict overwrite semantics), and the freshness
counter standing for the uuid generator. -/
structure Store where
  bullets : List Bullet
  vecs : List (List ℚ)
  bullet_id_to_index : List (Nat × Nat)
  nextId : Nat
  deriving Repr, DecidableEq, Inhabited

/-- Lookup in a Python dict modelled as an association list. -/
def dictGet (m : List (Nat × Nat)) (k : Nat) : Option Nat :=
  (m.find? (fun p => p.1 == k)).map (fun p => p.2)

/-- Assignment `m[k] = v` in a Python dict modelled as an association list. -/
def dictSet (m : List (Nat × Nat)) (k v : Nat) : List (Nat × Nat) :=
  (k, v) :: m.filter (fun p => p.1 != k)

/-- Inner product of two vectors, as computed by `faiss.IndexFlatIP`. -/
def dot : List ℚ → List ℚ → ℚ
  | a :: as, b :: bs => a * b + dot as bs
  | _, _ => 0

/-- `PlaybookManager.add_bullet`: creates the bullet, appends it, records its
position in the id map, embeds and stores its vector, returns the new id. -/
def add_bullet (emb : String → List ℚ) (st : Store) (content : String)
    (sectionLabel : String) : Nat × Store :=
  let bulletId := st.nextId
  let bullet : Bullet :=
    { id := bulletId, helpful := 0, harmful := 0,
      content := content, section' := sectionLabel }
  let bullets' := st.bullets ++ [bullet]
  (bulletId,
    { bullets := bullets',
      vecs := st.vecs ++ [emb content],
      bullet_id_to_index := dictSet st.bullet_id_to_index bulletId (bullets'.length - 1),
      nextId := st.nextId + 1 })

/-- `PlaybookManager.update_counters`: unknown id returns `False` untouched;
a known id increments one counter of the bullet at the mapped position.
`none` models the `IndexError` raised when the mapped position is out of
range (impossible in lockstep states). -/
def update_counters (st : Store) (bulletId : Nat) (helpful : Bool) :
    Option (Bool × Store) :=
  match dictGet st.bullet_id_to_index bulletId with
  | none => some (false, st)
  | some idx =>
    match st.bullets.get? idx with
    | none => none
    | some b =>
      let b' := if helpful then { b with helpful := b.helpful + 1 }
                else { b with harmful := b.harmful + 1 }
      some (true, { st with bullets := st.bullets.set idx b' })

/-- Sorting relation used to model FAISS returning hits by descending score. -/
def scoreGE (p q : ℚ × Nat) : Prop := q.1 ≤ p.1

instance : DecidableRel scoreGE := fun p q => inferInstanceAs (Decidable (q.1 ≤ p.1))

instance : IsTotal (ℚ × Nat) scoreGE := ⟨fun p q => (le_total q.1 p.1).imp id id⟩

instance : IsTrans (ℚ × Nat) scoreGE := ⟨fun _ _ _ h1 h2 => le_trans h2 h1⟩

/-- Model of `faiss.IndexFlatIP.search`: score every stored vector against the
query and return the first `k` (score, index) pairs in descending score
order. -/
def searchIdx (vecs : List (List ℚ)) (q : List ℚ) (k : Nat) : List (ℚ × Nat) :=
  let scored := (List.range vecs.length).map (fun i => (dot q (vecs.getD i []), i))
  (scored.insertionSort scoreGE).take k

/-- The hit-collection loop of `PlaybookManager.retrieve_relevant`, keeping the
score next to each surviving bullet (the source keeps the two in the parallel
`scores`/`indices` arrays while appending only bullets; the score component
here is the proof-facing view of that pairing).  Bullets with
`harmful > helpful` are dropped. -/
def retrieve_scored (emb : String → List ℚ) (st : Store) (query : String)
    (topK : Nat) : List (ℚ × Bullet) :=
  if st.bullets.isEmpty then []
  else
    let qv := emb query
    let res := searchIdx st.vecs qv (min topK st.bullets.length)
    res.filterMap (fun p =>
      if p.2 < st.bullets.length then
        let b := st.bullets.getD p.2 default
        if b.harmful ≤ b.helpful then some (p.1, b) else none
      else none)

/-- `PlaybookManager.retrieve_relevant`: the returned bullets, truncated to
`top_k`. -/
def retrieve_relevant (emb : String → List ℚ) (st : Store) (query : String)
    (topK : Nat) : List Bullet :=
  ((retrieve_scored emb st query topK).map Prod.snd).take topK

/-- Number of embedding-provider calls made by one `retrieve_relevant` call:
the empty-store early return happens before `_get_embedding(query)`, which is
otherwise invoked exactly once. -/
def retrieve_emb_calls (st : Store) : Nat :=
  if st.bullets.isEmpty then 0 else 1

end ACE

namespace ACE

lemma mem_retrieveScored_harmless {emb : String → List ℚ} {st : Store}
    {query : String} {topK : Nat} {p : ℚ × Bullet}
    (hp : p ∈ retrieve_scored emb st query topK) : p.2.harmful ≤ p.2.helpful := by
  unfold retrieve_scored at hp
  split at hp
  · simp at hp
  · rcases List.mem_filterMap.mp hp with ⟨q, _, hq⟩
    dsimp only at hq
    split at hq
    · split at hq
      · cases hq; assumption
      · cases hq
    · cases hq

lemma retrieveScored_pairwise (emb : String → List ℚ) (st : Store)
    (query : String) (topK : Nat) :
    (retrieve_scored emb st query topK).Pairwise
      (fun p q : ℚ × Bullet => q.1 ≤ p.1) := by
  unfold retrieve_scored
  split
  · exact List.Pairwise.nil
  · apply List.pairwise_filterMap.mpr
    have hsorted : (searchIdx st.vecs (emb query)
        (min topK st.bullets.length)).Pairwise scoreGE := by
      unfold searchIdx
      exact (List.sorted_insertionSort scoreGE _).sublist
        (List.take_sublist _ _)
    refine hsorted.imp_of_mem ?_
    intro a b _ _ hab x hx y hy
    dsimp only at hx hy
    have hx1 : x.1 = a.1 := by
      split at hx
      · split at hx
        · cases hx; rfl
        · cases hx
      · cases hx
    have hy1 : y.1 = b.1 := by
      split at hy
      · split at hy
        · cases hy; rfl
        · cases hy
      · cases hy
    rw [hx1, hy1]
    exact hab

/-- C5: `retrieve_relevant` never returns a bullet whose harmful counter
strictly exceeds its helpful counter; the returned bullets are the projection
of the score-descending hit list (hence ordered by descending similarity);
and the result length never exceeds `top_k`.  Holds for every store state,
query, `top_k` and embedding. -/
theorem retrieve_relevant_filters_sorts_truncates (emb : String → List ℚ)
    (st : Store) (query : String) (topK : Nat) :
    (∀ b ∈ retrieve_relevant emb st query topK, ¬ b.helpful < b.harmful) ∧
    (retrieve_scored emb st query topK).Pairwise
      (fun p q : ℚ × Bullet => q.1 ≤ p.1) ∧
    retrieve_relevant emb st query topK
      = ((retrieve_scored emb st query topK).map Prod.snd).take topK ∧
    (retrieve_relevant emb st query topK).length ≤ topK := by
  refine ⟨?_, retrieveScored_pairwise emb st query topK, rfl, ?_⟩
  · intro b hb
    have hb' : b ∈ (retrieve_scored emb st query topK).map Prod.snd :=
      List.mem_of_mem_take hb
    rcases List.mem_map.mp hb' with ⟨p, hp, rfl⟩
    exact Nat.not_lt.mpr (mem_retrieveScored_harmless hp)
  · exact le_trans (List.length_take_le _ _) le_rfl

/-- C9: on a store with zero bullets, `retrieve_relevant` returns the empty
sequence and performs zero embedding-provider calls (the early return sits
before the `_get_embedding(query)` call), for every query and `top_k`. -/
theorem retrieve_relevant_empty_store (emb : String → List ℚ) (st : Store)
    (query : String) (topK : Nat) (h : st.bullets = []) :
    retrieve_relevant emb st query topK = [] ∧ retrieve_emb_calls st = 0 := by
  constructor
  · simp [retrieve_relevant, retrieve_scored, h]
  · simp [retrieve_emb_calls, h]

/-- Witness for C9 at a concrete empty store, query "anything", top_k = 5. -/
theorem retrieve_relevant_empty_store_witness :
    retrieve_relevant (fun _ => []) ⟨[], [], [], 0⟩ "anything" 5 = [] ∧
    retrieve_emb_calls ⟨[], [], [], 0⟩ = 0 :=
  retrieve_relevant_empty_store (fun _ => []) ⟨[], [], [], 0⟩ "anything" 5 rfl

end ACE

namespace ACE

/-- Sum of the two usage counters of a bullet. -/
def cnt (b : Bullet) : Nat := b.helpful + b.harmful

/-- The merge-direction score `helpful / max(harmful, 1)` computed (exactly,
in ℚ) in `PlaybookManager.deduplicate`. -/
def quality (b : Bullet) : ℚ := (b.helpful : ℚ) / (max b.harmful 1 : ℚ)

/-- Counter merge done on the winning bullet of a duplicate pair in
`PlaybookManager.deduplicate` (the loser's counters are summed in). -/
def absorb (win lose : Bullet) : Bullet :=
  { win with helpful := win.helpful + lose.helpful,
             harmful := win.harmful + lose.harmful }

/-- The inner `for j in range(i+1, n)` loop of `PlaybookManager.deduplicate`:
`fuel` is the number of iterations left in the range (`n - j`), the standard
desugaring of the Python `for`.  Already-removed `j` are skipped; on a similar
pair the bullet with the lower quality score is merged (counters summed) into
the other; when `i` itself loses, it is marked removed and the loop breaks
(the early return). -/
def dedupInner (close : String → String → Bool) (i : Nat) :
    Nat → Nat → List Bullet → List Nat → List Bullet × List Nat
  | 0, _, bs, removed => (bs, removed)
  | fuel + 1, j, bs, removed =>
    if removed.contains j then dedupInner close i fuel (j + 1) bs removed
    else
      if close (bs.getD i default).content (bs.getD j default).content then
        if quality (bs.getD j default) ≤ quality (bs.getD i default) then
          dedupInner close i fuel (j + 1)
            (bs.set i (absorb (bs.getD i default) (bs.getD j default)))
            (j :: removed)
        else
          (bs.set j (absorb (bs.getD j default) (bs.getD i default)),
           i :: removed)
      else dedupInner close i fuel (j + 1) bs removed

/-- The outer `for i in range(n)` loop of `PlaybookManager.deduplicate`;
`fuel` is `n - i`.  The bullet list length is invariant, so the inner range
`range(i+1, n)` always has `bs.length - (i+1)` iterations. -/
def dedupOuter (close : String → String → Bool) :
    Nat → Nat → List Bullet → List Nat → List Bullet × List Nat
  | 0, _, bs, removed => (bs, removed)
  | fuel + 1, i, bs, removed =>
    if removed.contains i then dedupOuter close fuel (i + 1) bs removed
    else
      let r := dedupInner close i (bs.length - (i + 1)) (i + 1) bs removed
      dedupOuter close fuel (i + 1) r.1 r.2

/-- The removal comprehension
`[bullet for i, bullet in enumerate(self.bullets) if i not in bullets_to_remove]`,
with `k` the position of the list head. -/
def keepAux : List Bullet → List Nat → Nat → List Bullet
  | [], _, _ => []
  | b :: rest, removed, k =>
    if removed.contains k then keepAux rest removed (k + 1)
    else b :: keepAux rest removed (k + 1)

/-- The dict-building loop of `PlaybookManager._rebuild_index`
(`for i, bullet in enumerate(...): self.bullet_id_to_index[bullet.id] = i`),
with `m` the dict built so far. -/
def buildMapFrom : List Bullet → Nat → List (Nat × Nat) → List (Nat × Nat)
  | [], _, m => m
  | b :: rest, k, m => buildMapFrom rest (k + 1) (dictSet m b.id k)

/-- `PlaybookManager._rebuild_index`: fresh id map and fresh index built by
re-embedding every bullet's content. -/
def rebuild_index (emb : String → List ℚ) (st : Store) : Store :=
  { st with
    bullet_id_to_index := buildMapFrom st.bullets 0 [],
    vecs := st.bullets.map (fun b => emb b.content) }

/-- `PlaybookManager.deduplicate`: fewer than two bullets is a no-op; after
the pairwise loops, if nothing was marked, the (unchanged) bullet list is
kept as is; otherwise marked bullets are dropped, the FAISS index and the id
map are rebuilt, and the size of the removal set is returned. -/
def deduplicate (emb : String → List ℚ) (close : String → String → Bool)
    (st : Store) : Store × Nat :=
  if st.bullets.length < 2 then (st, 0)
  else
    let r := dedupOuter close st.bullets.length 0 st.bullets []
    if r.2.isEmpty then ({ st with bullets := r.1 }, 0)
    else
      (rebuild_index emb { st with bullets := keepAux r.1 r.2 0 },
       r.2.dedup.length)

/-- Total helpful+harmful mass of a bullet list. -/
def totalCnt (bs : List Bullet) : Nat := (bs.map cnt).sum

/-- Helpful+harmful mass of the bullets at positions not marked removed, the
head of the list sitting at position `k`. -/
def weightFrom : List Bullet → List Nat → Nat → Nat
  | [], _, _ => 0
  | b :: rest, removed, k =>
    (if removed.contains k then 0 else cnt b) + weightFrom rest removed (k + 1)

end ACE

namespace ACE

lemma cnt_absorb (win lose : Bullet) : cnt (absorb win lose) = cnt win + cnt lose := by
  simp [cnt, absorb]; omega

lemma weightFrom_nil_removed (bs : List Bullet) :
    ∀ k, weightFrom bs [] k = totalCnt bs := by
  induction bs with
  | nil => intro k; rfl
  | cons b rest ih =>
    intro k
    simp [weightFrom, totalCnt, List.map_cons, List.sum_cons] at ih ⊢
    exact ih (k + 1)

lemma weightFrom_irrel (bs : List Bullet) (removed : List Nat) (m : Nat) :
    ∀ k, m < k → weightFrom bs (m :: removed) k = weightFrom bs removed k := by
  induction bs with
  | nil => intro k _; rfl
  | cons b rest ih =>
    intro k hk
    have hne : (k == m) = false := by simp; omega
    simp only [weightFrom, List.contains_cons, hne, Bool.false_or]
    rw [ih (k + 1) (by omega)]

lemma weightFrom_set (b' : Bullet) (bs : List Bullet) :
    ∀ (removed : List Nat) (k m : Nat), m < bs.length →
    weightFrom (bs.set m b') removed k
        + (if removed.contains (k + m) then 0 else cnt (bs.getD m default))
      = weightFrom bs removed k
        + (if removed.contains (k + m) then 0 else cnt b') := by
  induction bs with
  | nil => intro removed k m hm; simp at hm
  | cons b rest ih =>
    intro removed k m hm
    cases m with
    | zero =>
      simp only [List.set_cons_zero, weightFrom, Nat.add_zero, List.getD_cons_zero]
      omega
    | succ m =>
      simp only [List.set_cons_succ, weightFrom, List.getD_cons_succ]
      have := ih removed (k + 1) m (by simpa using hm)
      have harr : k + 1 + m = k + (m + 1) := by omega
      rw [harr] at this
      omega

lemma weightFrom_remove (bs : List Bullet) :
    ∀ (removed : List Nat) (k m : Nat), m < bs.length →
    removed.contains (k + m) = false →
    weightFrom bs ((k + m) :: removed) k + cnt (bs.getD m default)
      = weightFrom bs removed k := by
  induction bs with
  | nil => intro removed k m hm; simp at hm
  | cons b rest ih =>
    intro removed k m hm hnot
    cases m with
    | zero =>
      have hself : ((k == k + 0) : Bool) = true := by simp
      simp only [weightFrom, List.getD_cons_zero, List.contains_cons, hself,
        Bool.true_or]
      rw [weightFrom_irrel rest removed (k + 0) (k + 1) (by omega)]
      simp only [Nat.add_zero] at hnot ⊢
      have hmem : k ∉ removed := by simpa using hnot
      simp [hmem]
      omega
    | succ m =>
      have hne : ((k == k + (m + 1)) : Bool) = false := by simp
      simp only [weightFrom, List.contains_cons, hne, Bool.false_or,
        List.getD_cons_succ]
      have := ih removed (k + 1) m (by simpa using hm)
        (by rw [show k + 1 + m = k + (m + 1) by omega]; exact hnot)
      rw [show k + 1 + m = k + (m + 1) by omega] at this
      omega

lemma totalCnt_keepAux (bs : List Bullet) :
    ∀ (removed : List Nat) (k : Nat),
    totalCnt (keepAux bs removed k) = weightFrom bs removed k := by
  induction bs with
  | nil => intro removed k; rfl
  | cons b rest ih =>
    intro removed k
    by_cases hc : removed.contains k = true
    · simp only [keepAux, weightFrom, hc, if_true]
      rw [ih]
      omega
    · simp only [keepAux, weightFrom, hc, if_false, Bool.false_eq_true]
      simp only [totalCnt, List.map_cons, List.sum_cons]
      rw [show (List.map cnt (keepAux rest removed (k + 1))).sum
            = totalCnt (keepAux rest removed (k + 1)) from rfl, ih]

end ACE

namespace ACE

lemma set_getD_self {α : Type} (l : List α) :
    ∀ (n : Nat) (d : α), l.set n (l.getD n d) = l := by
  induction l with
  | nil => intro n d; rfl
  | cons a t ih =>
    intro n d
    cases n with
    | zero => simp
    | succ n =>
      simp only [List.set_cons_succ, List.getD_cons_succ]
      rw [ih n d]

lemma map_id_set_absorb (bs : List Bullet) (m k : Nat) :
    (bs.set m (absorb (bs.getD m default) (bs.getD k default))).map Bullet.id
      = bs.map Bullet.id := by
  rw [List.map_set]
  rw [show Bullet.id (absorb (bs.getD m default) (bs.getD k default))
        = Bullet.id (bs.getD m default) from rfl]
  rw [show Bullet.id (bs.getD m default)
        = (bs.map Bullet.id).getD m (Bullet.id default) from
      (List.getD_map bs default Bullet.id).symm]
  rw [set_getD_self]

lemma dedupInner_ids (close : String → String → Bool) (i : Nat) (fuel : Nat) :
    ∀ j bs removed,
    (dedupInner close i fuel j bs removed).1.map Bullet.id
      = (bs : List Bullet).map Bullet.id := by
  induction fuel with
  | zero => intro j bs removed; rfl
  | succ fuel ih =>
    intro j bs removed
    rw [dedupInner]
    split
    · exact ih _ _ _
    · split
      · split
        · rw [ih _ _ _, map_id_set_absorb]
        · exact map_id_set_absorb bs j i
      · exact ih _ _ _

end ACE

namespace ACE

lemma dedupInner_length (close : String → String → Bool) (i : Nat) (fuel : Nat)
    (j : Nat) (bs : List Bullet) (removed : List Nat) :
    (dedupInner close i fuel j bs removed).1.length = bs.length := by
  have := congrArg List.length (dedupInner_ids close i fuel j bs removed)
  simpa using this

lemma dedupInner_weight (close : String → String → Bool) (i : Nat) (fuel : Nat) :
    ∀ j bs removed, i < (bs : List Bullet).length → i < j →
    fuel + j ≤ bs.length → (removed : List Nat).contains i = false →
    weightFrom (dedupInner close i fuel j bs removed).1
        (dedupInner close i fuel j bs removed).2 0
      = weightFrom bs removed 0 := by
  induction fuel with
  | zero => intro j bs removed _ _ _ _; rfl
  | succ fuel ih =>
    intro j bs removed hi hij hfj hirem
    have hj : j < bs.length := by omega
    rw [dedupInner]
    split
    · exact ih (j + 1) bs removed hi (by omega) (by omega) hirem
    · rename_i hjrem
      have hjrem' : removed.contains j = false := by
        simpa using hjrem
      have hne : (i == j) = false := by simp; omega
      have hicon : ((j :: removed).contains i) = false := by
        simp only [List.contains_cons, hne, Bool.false_or]
        exact hirem
      split
      · split
        · -- i absorbs j, j is marked removed, the loop continues
          rw [ih (j + 1) _ (j :: removed) (by simpa using hi) (by omega)
              (by simp only [List.length_set]; omega) hicon]
          have hset := weightFrom_set
            (absorb (bs.getD i default) (bs.getD j default)) bs
            (j :: removed) 0 i hi
          rw [show (0 + i : Nat) = i from by omega] at hset
          simp only [hicon, Bool.false_eq_true, if_false] at hset
          have hrem := weightFrom_remove bs removed 0 j hj
            (by simpa using hjrem')
          rw [show (0 + j : Nat) = j from by omega] at hrem
          rw [cnt_absorb] at hset
          omega
        · -- j absorbs i, i is marked removed, the loop breaks
          simp only
          have hne' : (j == i) = false := by simp; omega
          have hjcon : ((i :: removed).contains j) = false := by
            simp only [List.contains_cons, hne', Bool.false_or]
            exact hjrem'
          have hset := weightFrom_set
            (absorb (bs.getD j default) (bs.getD i default)) bs
            (i :: removed) 0 j hj
          rw [show (0 + j : Nat) = j from by omega] at hset
          simp only [hjcon, Bool.false_eq_true, if_false] at hset
          have hrem := weightFrom_remove bs removed 0 i hi
            (by simpa using hirem)
          rw [show (0 + i : Nat) = i from by omega] at hrem
          rw [cnt_absorb] at hset
          omega
      · exact ih (j + 1) bs removed hi (by omega) (by omega) hirem


lemma dedupOuter_weight (close : String → String → Bool) (fuel : Nat) :
    ∀ i bs removed, fuel + i ≤ (bs : List Bullet).length →
    weightFrom (dedupOuter close fuel i bs removed).1
        (dedupOuter close fuel i bs removed).2 0
      = weightFrom bs removed 0 := by
  induction fuel with
  | zero => intro i bs removed _; rfl
  | succ fuel ih =>
    intro i bs removed hfi
    have hi : i < bs.length := by omega
    rw [dedupOuter]
    split
    · exact ih (i + 1) bs removed (by omega)
    · rename_i hirem
      have hlen := dedupInner_length close i (bs.length - (i + 1)) (i + 1)
        bs removed
      rw [ih (i + 1) _ _ (by rw [hlen]; omega)]
      exact dedupInner_weight close i (bs.length - (i + 1)) (i + 1) bs removed
        hi (by omega) (by omega) (by simpa using hirem)

/-- C6: `deduplicate` conserves the total helpful+harmful mass of the store:
merging sums the loser's counters into the winner and only then drops the
loser, so no counts are lost.  Quantified over every store state and every
similarity predicate `close` (hence every similarity threshold and every
embedding). -/
theorem deduplicate_conserves_counters (emb : String → List ℚ)
    (close : String → String → Bool) (st : Store) :
    totalCnt (deduplicate emb close st).1.bullets = totalCnt st.bullets := by
  unfold deduplicate
  split
  · rfl
  · have houter := dedupOuter_weight close st.bullets.length 0 st.bullets []
      (by omega)
    rw [weightFrom_nil_removed st.bullets 0] at houter
    dsimp only
    split
    · rename_i hempty
      rw [List.isEmpty_iff.mp hempty, weightFrom_nil_removed _ 0] at houter
      exact houter
    · simp only [rebuild_index]
      rw [totalCnt_keepAux]
      exact houter

end ACE

namespace ACE

/-- One mutating store operation of the add/deduplicate fragment. -/
inductive StoreOp where
  | add (content sectionLabel : String) : StoreOp
  | dedup (close : String → String → Bool) : StoreOp

/-- Apply one store operation. -/
def applyOp (emb : String → List ℚ) (st : Store) : StoreOp → Store
  | StoreOp.add c s => (add_bullet emb st c s).2
  | StoreOp.dedup close => (deduplicate emb close st).1

/-- Apply a sequence of store operations in order. -/
def applyOps (emb : String → List ℚ) : List StoreOp → Store → Store
  | [], st => st
  | op :: rest, st => applyOps emb rest (applyOp emb st op)

/-- The freshly initialized `PlaybookManager` state (no persisted playbook). -/
def emptyStore : Store :=
  { bullets := [], vecs := [], bullet_id_to_index := [], nextId := 0 }

/-- The index/store lockstep invariant of the claim: as many vectors as
bullets, every bullet id mapped to its own position, and ids pairwise
distinct. -/
def Lockstep (st : Store) : Prop :=
  st.bullets.length = st.vecs.length ∧
  (∀ i, i < st.bullets.length →
    dictGet st.bullet_id_to_index ((st.bullets.getD i default).id) = some i) ∧
  (st.bullets.map Bullet.id).Nodup

/-- Internal invariant: lockstep, soundness of every id-map entry, and
freshness of the id counter. -/
def Inv (st : Store) : Prop :=
  Lockstep st ∧
  (∀ bid idx, dictGet st.bullet_id_to_index bid = some idx →
    idx < st.bullets.length ∧ (st.bullets.getD idx default).id = bid) ∧
  (∀ b ∈ st.bullets, b.id < st.nextId)

lemma dictGet_dictSet_self (m : List (Nat × Nat)) (k v : Nat) :
    dictGet (dictSet m k v) k = some v := by
  simp [dictGet, dictSet, List.find?_cons]

lemma find?_filter_ne (k k' : Nat) (h : k' ≠ k) : ∀ (m : List (Nat × Nat)),
    (m.filter (fun p => p.1 != k)).find? (fun p => p.1 == k')
      = m.find? (fun p => p.1 == k') := by
  intro m
  induction m with
  | nil => rfl
  | cons a rest ih =>
    by_cases hk : a.1 = k
    · have h1 : (a.1 != k) = false := by simp [hk]
      have h2 : (a.1 == k') = false := by simp [hk]; omega
      simp only [List.filter_cons, h1, Bool.false_eq_true, if_false,
        List.find?_cons, h2]
      exact ih
    · have h1 : (a.1 != k) = true := by simp [hk]
      simp only [List.filter_cons, h1, if_true, List.find?_cons]
      by_cases h2 : a.1 = k'
      · simp [h2]
      · have h3 : (a.1 == k') = false := by simp [h2]
        simp only [h3]
        exact ih

lemma dictGet_dictSet_ne (m : List (Nat × Nat)) (k v k' : Nat) (h : k' ≠ k) :
    dictGet (dictSet m k v) k' = dictGet m k' := by
  have hk : ((k == k') : Bool) = false := by simp; omega
  simp only [dictGet, dictSet, List.find?_cons, hk]
  rw [find?_filter_ne k k' h m]

lemma dictGet_dictSet_cases (m : List (Nat × Nat)) (k v bid idx : Nat)
    (h : dictGet (dictSet m k v) bid = some idx) :
    (bid = k ∧ idx = v) ∨ (bid ≠ k ∧ dictGet m bid = some idx) := by
  by_cases hb : bid = k
  · subst hb
    rw [dictGet_dictSet_self] at h
    exact Or.inl ⟨rfl, by injection h; omega⟩
  · rw [dictGet_dictSet_ne m k v bid hb] at h
    exact Or.inr ⟨hb, h⟩

end ACE

namespace ACE

lemma buildMapFrom_notmem (bid : Nat) : ∀ (bs : List Bullet) (k : Nat)
    (m : List (Nat × Nat)), bid ∉ bs.map Bullet.id →
    dictGet (buildMapFrom bs k m) bid = dictGet m bid := by
  intro bs
  induction bs with
  | nil => intro k m _; rfl
  | cons b rest ih =>
    intro k m hmem
    simp only [List.map_cons, List.mem_cons, not_or] at hmem
    simp only [buildMapFrom]
    rw [ih (k + 1) _ hmem.2]
    exact dictGet_dictSet_ne m b.id k bid hmem.1

lemma buildMapFrom_pos : ∀ (bs : List Bullet) (k : Nat)
    (m : List (Nat × Nat)), (bs.map Bullet.id).Nodup →
    ∀ p, p < bs.length →
    dictGet (buildMapFrom bs k m) ((bs.getD p default).id) = some (k + p) := by
  intro bs
  induction bs with
  | nil => intro k m _ p hp; simp at hp
  | cons b rest ih =>
    intro k m hnodup p hp
    simp only [List.map_cons, List.nodup_cons] at hnodup
    cases p with
    | zero =>
      simp only [List.getD_cons_zero, buildMapFrom, Nat.add_zero]
      rw [buildMapFrom_notmem b.id rest (k + 1) _ hnodup.1]
      exact dictGet_dictSet_self m b.id k
    | succ p =>
      simp only [List.getD_cons_succ, buildMapFrom]
      rw [ih (k + 1) _ hnodup.2 p (by simpa using hp)]
      congr 1
      omega

lemma buildMapFrom_sound (bid idx : Nat) : ∀ (bs : List Bullet) (k : Nat)
    (m : List (Nat × Nat)),
    dictGet (buildMapFrom bs k m) bid = some idx →
    (∃ p, p < bs.length ∧ (bs.getD p default).id = bid ∧ idx = k + p) ∨
    (bid ∉ bs.map Bullet.id ∧ dictGet m bid = some idx) := by
  intro bs
  induction bs with
  | nil => intro k m h; exact Or.inr ⟨by simp, h⟩
  | cons b rest ih =>
    intro k m h
    simp only [buildMapFrom] at h
    rcases ih (k + 1) (dictSet m b.id k) h with ⟨p, hp, hid, hidx⟩ | ⟨hmem, hget⟩
    · exact Or.inl ⟨p + 1, by simpa using hp, by simpa using hid, by omega⟩
    · rcases dictGet_dictSet_cases m b.id k bid idx hget with ⟨rfl, rfl⟩ | ⟨hne, hget'⟩
      · exact Or.inl ⟨0, by simp, by simp, by omega⟩
      · refine Or.inr ⟨?_, hget'⟩
        simp only [List.map_cons, List.mem_cons, not_or]
        exact ⟨hne, hmem⟩

lemma keepAux_sublist : ∀ (bs : List Bullet) (removed : List Nat) (k : Nat),
    List.Sublist (keepAux bs removed k) bs := by
  intro bs
  induction bs with
  | nil => intro removed k; simp [keepAux]
  | cons b rest ih =>
    intro removed k
    simp only [keepAux]
    split
    · exact (ih removed (k + 1)).cons b
    · exact (ih removed (k + 1)).cons₂ b

lemma dedupOuter_ids (close : String → String → Bool) (fuel : Nat) :
    ∀ i bs removed,
    (dedupOuter close fuel i bs removed).1.map Bullet.id
      = (bs : List Bullet).map Bullet.id := by
  induction fuel with
  | zero => intro i bs removed; rfl
  | succ fuel ih =>
    intro i bs removed
    rw [dedupOuter]
    split
    · exact ih _ _ _
    · rw [ih _ _ _]
      exact dedupInner_ids close i _ _ bs removed

lemma id_getD_of_map_id_eq {bs1 bs2 : List Bullet}
    (h : bs1.map Bullet.id = bs2.map Bullet.id) (p : Nat) :
    (bs1.getD p default).id = (bs2.getD p default).id := by
  have h1 := List.getD_map bs1 (default : Bullet) Bullet.id (n := p)
  have h2 := List.getD_map bs2 (default : Bullet) Bullet.id (n := p)
  rw [← h1, ← h2, h]

end ACE

namespace ACE

lemma getD_mem {α : Type} (l : List α) (n : Nat) (d : α) (h : n < l.length) :
    l.getD n d ∈ l := by
  rw [List.getD_eq_getElem?_getD, List.getElem?_eq_getElem h]
  simp

lemma getD_append_last {α : Type} (l : List α) (x d : α) :
    (l ++ [x]).getD l.length d = x := by
  simp [List.getD_eq_getElem?_getD]

lemma inv_emptyStore : Inv emptyStore := by
  refine ⟨⟨rfl, ?_, ?_⟩, ?_, ?_⟩
  · intro i hi; simp [emptyStore] at hi
  · simp [emptyStore]
  · intro bid idx h; simp [emptyStore, dictGet] at h
  · intro b hb; simp [emptyStore] at hb

lemma add_bullet_snd (emb : String → List ℚ) (st : Store)
    (content sectionLabel : String) :
    (add_bullet emb st content sectionLabel).2 =
      { bullets := st.bullets ++ [⟨st.nextId, 0, 0, content, sectionLabel⟩],
        vecs := st.vecs ++ [emb content],
        bullet_id_to_index := dictSet st.bullet_id_to_index st.nextId st.bullets.length,
        nextId := st.nextId + 1 } := by
  simp [add_bullet]

lemma inv_addBullet (emb : String → List ℚ) (st : Store)
    (content sectionLabel : String) (h : Inv st) :
    Inv (add_bullet emb st content sectionLabel).2 := by
  obtain ⟨⟨hlen, hpos, hnodup⟩, hsound, hfresh⟩ := h
  rw [add_bullet_snd]
  refine ⟨⟨?_, ?_, ?_⟩, ?_, ?_⟩
  · dsimp only
    simp [hlen]
  · -- position property
    intro i hi
    dsimp only at hi ⊢
    simp only [List.length_append, List.length_cons, List.length_nil] at hi
    rcases Nat.lt_or_ge i st.bullets.length with hlt | hge
    · rw [List.getD_append _ _ _ _ hlt]
      have hid := hfresh _ (getD_mem st.bullets i default hlt)
      rw [dictGet_dictSet_ne _ _ _ _ (by omega)]
      exact hpos i hlt
    · have hieq : i = st.bullets.length := by omega
      subst hieq
      rw [getD_append_last]
      exact dictGet_dictSet_self _ _ _
  · -- ids stay pairwise distinct
    dsimp only
    simp only [List.map_append, List.map_cons, List.map_nil]
    have hnot : st.nextId ∉ st.bullets.map Bullet.id := by
      intro hmem
      rcases List.mem_map.mp hmem with ⟨b, hb, hid⟩
      have := hfresh b hb
      omega
    simp [List.nodup_append, hnodup, hnot]
  · -- every map entry points at the bullet carrying that id
    intro bid idx hget
    dsimp only at hget ⊢
    rcases dictGet_dictSet_cases _ _ _ _ _ hget with ⟨rfl, rfl⟩ | ⟨hne, hget2⟩
    · refine ⟨by simp, ?_⟩
      rw [getD_append_last]
    · obtain ⟨hidx, hid⟩ := hsound bid idx hget2
      refine ⟨by simp; omega, ?_⟩
      rw [List.getD_append _ _ _ _ hidx]
      exact hid
  · -- freshness
    intro b hb
    dsimp only at hb ⊢
    simp only [List.mem_append, List.mem_cons, List.not_mem_nil,
      or_false] at hb
    rcases hb with hb | hb
    · have := hfresh b hb
      omega
    · subst hb
      exact Nat.lt_succ_self st.nextId

lemma inv_deduplicate (emb : String → List ℚ) (close : String → String → Bool)
    (st : Store) (h : Inv st) : Inv (deduplicate emb close st).1 := by
  obtain ⟨⟨hlen, hpos, hnodup⟩, hsound, hfresh⟩ := h
  unfold deduplicate
  split
  · exact ⟨⟨hlen, hpos, hnodup⟩, hsound, hfresh⟩
  · have hids : (dedupOuter close st.bullets.length 0 st.bullets []).1.map Bullet.id
        = st.bullets.map Bullet.id := dedupOuter_ids close st.bullets.length 0 st.bullets []
    have hlen1 : (dedupOuter close st.bullets.length 0 st.bullets []).1.length
        = st.bullets.length := by
      have := congrArg List.length hids
      simpa using this
    dsimp only
    split
    · -- nothing was marked: the (id-identical) loop output replaces the list
      refine ⟨⟨?_, ?_, ?_⟩, ?_, ?_⟩
      · dsimp only
        rw [hlen1, hlen]
      · intro i hi
        dsimp only at hi ⊢
        rw [id_getD_of_map_id_eq hids]
        exact hpos i (by omega)
      · dsimp only
        rw [hids]
        exact hnodup
      · intro bid idx hget
        dsimp only at hget ⊢
        obtain ⟨hidx, hid⟩ := hsound bid idx hget
        exact ⟨by omega, by rw [id_getD_of_map_id_eq hids]; exact hid⟩
      · intro b hb
        dsimp only at hb ⊢
        have hmem : b.id ∈ st.bullets.map Bullet.id := by
          rw [← hids]
          exact List.mem_map.mpr ⟨b, hb, rfl⟩
        rcases List.mem_map.mp hmem with ⟨b', hb', hid⟩
        have := hfresh b' hb'
        omega
    · -- marked bullets dropped, id map and index rebuilt
      have hsub : List.Sublist
          (keepAux (dedupOuter close st.bullets.length 0 st.bullets []).1
            (dedupOuter close st.bullets.length 0 st.bullets []).2 0)
          (dedupOuter close st.bullets.length 0 st.bullets []).1 :=
        keepAux_sublist _ _ 0
      have hnodup' : ((keepAux (dedupOuter close st.bullets.length 0 st.bullets []).1
            (dedupOuter close st.bullets.length 0 st.bullets []).2 0).map
              Bullet.id).Nodup := by
        refine List.Nodup.sublist (hsub.map Bullet.id) ?_
        rw [hids]
        exact hnodup
      refine ⟨⟨?_, ?_, ?_⟩, ?_, ?_⟩
      · dsimp only [rebuild_index]
        simp
      · intro i hi
        dsimp only [rebuild_index] at hi ⊢
        have := buildMapFrom_pos _ 0 [] hnodup' i hi
        simpa using this
      · dsimp only [rebuild_index]
        exact hnodup'
      · intro bid idx hget
        dsimp only [rebuild_index] at hget ⊢
        rcases buildMapFrom_sound bid idx _ 0 [] hget with
          ⟨p, hp, hid, hidx⟩ | ⟨_, hget'⟩
        · exact ⟨by omega, by rw [show idx = p from by omega]; exact hid⟩
        · simp [dictGet] at hget'
      · intro b hb
        dsimp only [rebuild_index] at hb ⊢
        have hb1 : b ∈ (dedupOuter close st.bullets.length 0 st.bullets []).1 :=
          hsub.subset hb
        have hmem : b.id ∈ st.bullets.map Bullet.id := by
          rw [← hids]
          exact List.mem_map.mpr ⟨b, hb1, rfl⟩
        rcases List.mem_map.mp hmem with ⟨b', hb', hid⟩
        have := hfresh b' hb'
        omega

lemma inv_applyOps (emb : String → List ℚ) : ∀ (ops : List StoreOp) (st : Store),
    Inv st → Inv (applyOps emb ops st) := by
  intro ops
  induction ops with
  | nil => intro st h; exact h
  | cons op rest ih =>
    intro st h
    cases op with
    | add c s => exact ih _ (inv_addBullet emb st c s h)
    | dedup close => exact ih _ (inv_deduplicate emb close st h)

/-- C4: starting from the empty store, after any sequence of add and
deduplicate operations the number of bullets equals the number of vectors in
the index, the id→position map sends every bullet id to exactly its position
in the bullet list, and bullet ids are pairwise distinct (so positions are
distinct and valid). -/
theorem lockstep_add_dedup (emb : String → List ℚ) (ops : List StoreOp) :
    Lockstep (applyOps emb ops emptyStore) :=
  (inv_applyOps emb ops emptyStore inv_emptyStore).1

end ACE

namespace ACE

/-- Python substring test `pat in s` (for non-empty `pat`). -/
def strContains (s pat : String) : Bool := (s.splitOn pat).length != 1

/-- The machine-object artifact tokens scanned for by
`CuratorAgent._clean_and_format_content`. -/
def techTerms : List String :=
  ["HumanMessage", "AIMessage", "\x7b", "\x7d", "additional_kwargs",
   "response_metadata"]

/-- `ReflectionInsight` dataclass from `reflector_agent.py` (the `bullet_tags`
field is never read by the curator or pipeline code modelled here and is
omitted; `confidence` is a float in [0,1], modelled in ℚ). -/
structure ReflectionInsight where
  error_identification : String
  root_cause_analysis : String
  correct_approach : String
  key_insight : String
  confidence : ℚ
  deriving Repr, DecidableEq, Inhabited

/-- `CuratorAgent._create_fallback_insight`. -/
def create_fallback_insight (insight : ReflectionInsight) : String :=
  if insight.error_identification != ""
      && !(strContains insight.error_identification.toLower "no error") then
    "When " ++ insight.error_identification.toLower
      ++ ", use this approach: " ++ insight.correct_approach
  else
    "Success pattern: " ++ insight.correct_approach

/-- The numbering loop of `CuratorAgent._apply_structured_formatting`:
`enumerate(lines, 1)` counts every line, but only non-blank lines are kept. -/
def numberLines : List String → Nat → List String
  | [], _ => []
  | line :: rest, i =>
    if line.trim != "" then (toString i ++ ". " ++ line.trim) :: numberLines rest (i + 1)
    else numberLines rest (i + 1)

/-- `CuratorAgent._apply_structured_formatting`. -/
def apply_structured_formatting (content : String) : String :=
  let content' :=
    if strContains content "\n"
        && !(["1.", "2.", "3.", "4.", "5."].any (fun p => content.startsWith p)) then
      let lines := content.splitOn "\n"
      if lines.length > 1 then String.intercalate "\n" (numberLines lines 1)
      else content
    else content
  content'.trim

/-- `CuratorAgent._clean_and_format_content`. -/
def clean_and_format_content (content : String)
    (insight : ReflectionInsight) : String :=
  let formatted :=
    if techTerms.any (fun t => strContains content t) then
      if insight.error_identification != ""
          && !(strContains insight.error_identification.toLower "no error") then
        "When " ++ insight.error_identification.toLower
          ++ ", avoid this approach and instead: " ++ insight.correct_approach
      else
        "When answering similar questions, use this approach: "
          ++ insight.correct_approach
    else content.trim
  let formatted2 := apply_structured_formatting formatted
  if formatted2 == "" || formatted2.length < 10 then
    create_fallback_insight insight
  else formatted2

/-- `CuratorAgent._format_bullet_content` (the debug prints around the call
carry no state). -/
def format_bullet_content (content : String) (insight : ReflectionInsight) :
    String :=
  clean_and_format_content content insight

/-- `CuratorAgent._determine_section`: first-match keyword routing on the
lowercased key insight. -/
def determine_section (insight : ReflectionInsight) : String :=
  let content_lower := insight.key_insight.toLower
  if ["explain", "definition", "what is", "describe"].any
      (fun w => strContains content_lower w) then "Explanation Strategies"
  else if ["calculate", "math", "compute", "solve"].any
      (fun w => strContains content_lower w) then "Calculation Strategies"
  else if ["search", "find", "look up", "research"].any
      (fun w => strContains content_lower w) then "Search Strategies"
  else if ["time", "date", "schedule"].any
      (fun w => strContains content_lower w) then "Time Management"
  else if ["user", "personal", "individual"].any
      (fun w => strContains content_lower w) then "User Interaction"
  else if ["error", "mistake", "wrong", "incorrect"].any
      (fun w => strContains content_lower w) then "Error Prevention"
  else if ["format", "structure", "organize", "bullet"].any
      (fun w => strContains content_lower w) then "Response Formatting"
  else "General Strategies"

/-- All keywords of `CuratorAgent._determine_section`, used to state the
default case. -/
def sectionKeywords : List String :=
  ["explain", "definition", "what is", "describe",
   "calculate", "math", "compute", "solve",
   "search", "find", "look up", "research",
   "time", "date", "schedule",
   "user", "personal", "individual",
   "error", "mistake", "wrong", "incorrect",
   "format", "structure", "organize", "bullet"]

/-- `CuratorAgent._find_similar_bullets` (its `threshold` parameter is unused
in the source beyond documentation). -/
def find_similar_bullets (emb : String → List ℚ) (st : Store)
    (content : String) : List Bullet :=
  if st.bullets.isEmpty then []
  else (retrieve_relevant emb st content 5).take 3

/-- `DeltaOperation` dataclass from `curator_agent.py`. -/
structure DeltaOperation where
  operation : String
  bullet_id : Option Nat := none
  content : Option String := none
  section' : Option String := none
  helpful_increment : Nat := 0
  harmful_increment : Nat := 0
  deriving Repr, DecidableEq, Inhabited

/-- `DeltaUpdate` dataclass (the wall-clock `timestamp` field is not
modelled). -/
structure DeltaUpdate where
  operations : List DeltaOperation
  source_feedback_id : String
  total_operations : Nat
  deriving Repr, DecidableEq, Inhabited

/-- `CuratorAgent.process_insights`. -/
def process_insights (emb : String → List ℚ) (st : Store)
    (insight : ReflectionInsight) (feedback_id : String) : DeltaUpdate :=
  let operations : List DeltaOperation :=
    if (1 : ℚ)/2 < insight.confidence then
      match find_similar_bullets emb st insight.key_insight with
      | best :: _ =>
        [{ operation := "UPDATE", bullet_id := some best.id,
           content := some (format_bullet_content insight.key_insight insight),
           helpful_increment := if (7 : ℚ)/10 < insight.confidence then 1 else 0,
           harmful_increment := 0 }]
      | [] =>
        [{ operation := "ADD",
           content := some (format_bullet_content
             (format_bullet_content insight.key_insight insight) insight),
           section' := some (determine_section insight),
           helpful_increment := 1, harmful_increment := 0 }]
    else []
  { operations := operations, source_feedback_id := feedback_id,
    total_operations := operations.length }

/-- `CuratorAgent.process_positive_feedback`. -/
def process_positive_feedback (insight : ReflectionInsight)
    (feedback_id : String) : DeltaUpdate :=
  let operations : List DeltaOperation :=
    if (1 : ℚ)/2 < insight.confidence then
      [{ operation := "ADD",
         content := some ("SUCCESS PATTERN: " ++ insight.key_insight),
         section' := some "Success Patterns",
         helpful_increment := 1, harmful_increment := 0 }]
    else []
  { operations := operations, source_feedback_id := feedback_id,
    total_operations := operations.length }

/-- `CuratorAgent.process_negative_feedback`. -/
def process_negative_feedback (insight : ReflectionInsight)
    (feedback_id : String) : DeltaUpdate :=
  let operations : List DeltaOperation :=
    if (3 : ℚ)/5 < insight.confidence then
      [{ operation := "ADD",
         content := some ("AVOID: " ++ insight.error_identification
           ++ "\n\nInstead: " ++ insight.correct_approach),
         section' := some "Anti-Patterns",
         helpful_increment := 1, harmful_increment := 0 }]
    else []
  { operations := operations, source_feedback_id := feedback_id,
    total_operations := operations.length }

end ACE

namespace ACE

/-- The three execution paths of `ACEPipeline._run_curator` plus the
no-insight empty delta. -/
inductive CuratorPath where
  | positiveFeedback : CuratorPath
  | negativeFeedback : CuratorPath
  | general : CuratorPath
  | empty : CuratorPath
  deriving Repr, DecidableEq

/-- The dispatch of `ACEPipeline._run_curator`: which curator entry point is
invoked.  The branch conditions are exactly the source's substring tests on
`insight.error_identification.lower()`. -/
def run_curator_path (insight : Option ReflectionInsight) : CuratorPath :=
  match insight with
  | none => CuratorPath.empty
  | some ins =>
    let ft := ins.error_identification.toLower
    if strContains ft "success" || strContains ft "correct" then
      CuratorPath.positiveFeedback
    else if strContains ft "error" || strContains ft "wrong" then
      CuratorPath.negativeFeedback
    else CuratorPath.general

/-- `ACEPipeline._run_curator` itself (its `try` body cannot raise in the
model, so the exception fallback delta is unreachable). -/
def run_curator (emb : String → List ℚ) (st : Store)
    (insight : Option ReflectionInsight) (feedback_id : String) : DeltaUpdate :=
  match insight with
  | none =>
    { operations := [], source_feedback_id := feedback_id,
      total_operations := 0 }
  | some ins =>
    let ft := ins.error_identification.toLower
    if strContains ft "success" || strContains ft "correct" then
      process_positive_feedback ins feedback_id
    else if strContains ft "error" || strContains ft "wrong" then
      process_negative_feedback ins feedback_id
    else process_insights emb st ins feedback_id

/-- Python truthiness `operation.section or "General"` (None and the empty
string both fall back). -/
def orDefault (s : Option String) (d : String) : String :=
  match s with
  | none => d
  | some t => if t == "" then d else t

/-- The `for _ in range(n)` unit-increment loop inside
`CuratorAgent.merge_delta`'s UPDATE branch; the Bool is false when a call
raised (state at the raise point is returned for the surrounding `except`). -/
def iterCounters (bulletId : Nat) (helpful : Bool) :
    Nat → Store → Store × Bool
  | 0, st => (st, true)
  | n + 1, st =>
    match update_counters st bulletId helpful with
    | none => (st, false)
    | some (_, st') => iterCounters bulletId helpful n st'

/-- The operation loop of `CuratorAgent.merge_delta`: ADD with a `None`
content raises (`content[:100]`) before any mutation; UPDATE with a falsy
bullet id is skipped; unknown operation kinds are silently skipped.  On an
exception the merge returns `False` with every previously applied operation
still applied. -/
def mergeOps (emb : String → List ℚ) : List DeltaOperation → Store → Bool × Store
  | [], st => (true, st)
  | op :: rest, st =>
    if op.operation == "ADD" then
      match op.content with
      | none => (false, st)
      | some c =>
        mergeOps emb rest (add_bullet emb st c (orDefault op.section' "General")).2
    else if op.operation == "UPDATE" then
      match op.bullet_id with
      | none => mergeOps emb rest st
      | some bid =>
        let rh := iterCounters bid true op.helpful_increment st
        if rh.2 then
          let rk := iterCounters bid false op.harmful_increment rh.1
          if rk.2 then mergeOps emb rest rk.1 else (false, rk.1)
        else (false, rh.1)
    else mergeOps emb rest st

/-- `CuratorAgent.merge_delta` (the trailing `_save_delta_log` call swallows
its own errors and touches no store state). -/
def merge_delta (emb : String → List ℚ) (st : Store) (delta : DeltaUpdate) :
    Bool × Store :=
  mergeOps emb delta.operations st

/-- `FeedbackData` from `feedback_system.py`, restricted to the fields the
modelled pipeline code reads (`rating` is `Optional[int]`). -/
structure FeedbackData where
  feedback_id : String
  feedback_type : String
  rating : Option Int
  deriving Repr, DecidableEq, Inhabited

/-- The per-bullet loop of `ACEPipeline._update_bullet_counters`; an
exception inside `update_counters` is caught by the surrounding `except`,
leaving the store as it was at the raise point. -/
def counterLoop (isPos isNeg : Bool) : List Nat → Store → Store
  | [], st => st
  | bid :: rest, st =>
    if isPos then
      match update_counters st bid true with
      | none => st
      | some (_, st') => counterLoop isPos isNeg rest st'
    else if isNeg then
      match update_counters st bid false with
      | none => st
      | some (_, st') => counterLoop isPos isNeg rest st'
    else counterLoop isPos isNeg rest st

/-- `ACEPipeline._update_bullet_counters`: early return on no used bullets; a
`None` rating raises `TypeError` in `rating >= 4` (caught by the function's
`except`, so no counter changes at all); otherwise one unit increment per
used bullet id, helpful when net-positive, harmful when net-negative and not
net-positive, none otherwise. -/
def update_bullet_counters (usedBullets : List Nat) (fb : FeedbackData)
    (st : Store) : Store :=
  if usedBullets.isEmpty then st
  else
    match fb.rating with
    | none => st
    | some r =>
      let isPos := (4 ≤ r) || (fb.feedback_type == "positive")
      let isNeg := (r ≤ 2) || (fb.feedback_type == "incorrect")
      counterLoop isPos isNeg usedBullets st

end ACE

namespace ACE

lemma getD_of_get? {α : Type} {l : List α} {n : Nat} {b : α} (d : α)
    (h : l.get? n = some b) : l.getD n d = b := by
  simp [List.getD_eq_getElem?_getD, ← List.get?_eq_getElem?, h]

lemma set_of_get? {α : Type} {l : List α} {n : Nat} {b : α}
    (h : l.get? n = some b) : l.set n b = l := by
  have hd := getD_of_get? b h
  rw [← hd, set_getD_self]

/-- The bullet written by a unit `update_counters` call. -/
def bumpCounter (hp : Bool) (b : Bullet) : Bullet :=
  if hp then { b with helpful := b.helpful + 1 }
  else { b with harmful := b.harmful + 1 }

lemma updateCounters_notfound (st : Store) (bid : Nat) (hp : Bool)
    (h : dictGet st.bullet_id_to_index bid = none) :
    update_counters st bid hp = some (false, st) := by
  unfold update_counters
  rw [h]

lemma updateCounters_found (st : Store) (bid : Nat) (hp : Bool) (idx : Nat)
    (b : Bullet) (hmap : dictGet st.bullet_id_to_index bid = some idx)
    (hb : st.bullets.get? idx = some b) :
    update_counters st bid hp
      = some (true, { st with bullets := st.bullets.set idx (bumpCounter hp b) }) := by
  unfold update_counters
  simp only [hmap, hb]
  rfl

lemma bumpCounter_id (hp : Bool) (b : Bullet) : (bumpCounter hp b).id = b.id := by
  cases hp <;> rfl

lemma bumpCounter_content (hp : Bool) (b : Bullet) :
    (bumpCounter hp b).content = b.content := by
  cases hp <;> rfl

lemma map_id_set_same (bs : List Bullet) (idx : Nat) (b b' : Bullet)
    (hb : bs.get? idx = some b) (hid : b'.id = b.id) :
    (bs.set idx b').map Bullet.id = bs.map Bullet.id := by
  rw [List.map_set, hid, ← getD_of_get? (default : Bullet) hb]
  rw [show Bullet.id (bs.getD idx default)
        = (bs.map Bullet.id).getD idx (Bullet.id default) from
      (List.getD_map bs default Bullet.id).symm]
  rw [set_getD_self]

lemma map_content_set_same (bs : List Bullet) (idx : Nat) (b b' : Bullet)
    (hb : bs.get? idx = some b) (hc : b'.content = b.content) :
    (bs.set idx b').map Bullet.content = bs.map Bullet.content := by
  rw [List.map_set, hc, ← getD_of_get? (default : Bullet) hb]
  rw [show Bullet.content (bs.getD idx default)
        = (bs.map Bullet.content).getD idx (Bullet.content default) from
      (List.getD_map bs default Bullet.content).symm]
  rw [set_getD_self]

lemma inv_set_counters (st : Store) (idx : Nat) (b b' : Bullet)
    (hb : st.bullets.get? idx = some b) (hid : b'.id = b.id)
    (h : Inv st) : Inv { st with bullets := st.bullets.set idx b' } := by
  obtain ⟨⟨hlen, hpos, hnodup⟩, hsound, hfresh⟩ := h
  have hmap := map_id_set_same st.bullets idx b b' hb hid
  refine ⟨⟨?_, ?_, ?_⟩, ?_, ?_⟩
  · dsimp only
    simp [hlen]
  · intro i hi
    dsimp only at hi ⊢
    simp only [List.length_set] at hi
    rw [id_getD_of_map_id_eq hmap]
    exact hpos i hi
  · dsimp only
    rw [hmap]
    exact hnodup
  · intro bid idx' hget
    dsimp only at hget ⊢
    obtain ⟨hidx, hid'⟩ := hsound bid idx' hget
    refine ⟨by simpa using hidx, ?_⟩
    rw [id_getD_of_map_id_eq hmap]
    exact hid'
  · intro b'' hb''
    dsimp only at hb'' ⊢
    rcases List.mem_or_eq_of_mem_set hb'' with hm | hm
    · exact hfresh b'' hm
    · subst hm
      rw [hid]
      have hbm : b ∈ st.bullets := by
        have := getD_of_get? (default : Bullet) hb
        rw [← this]
        refine getD_mem st.bullets idx default ?_
        by_contra hcon
        rw [List.get?_eq_none.mpr (by omega)] at hb
        cases hb
      exact hfresh b hbm

end ACE

namespace ACE

/-- Effect of `n` unit increment calls on one bullet. -/
def bumpN (hp : Bool) (n : Nat) (b : Bullet) : Bullet :=
  if hp then { b with helpful := b.helpful + n }
  else { b with harmful := b.harmful + n }

lemma bumpN_zero (hp : Bool) (b : Bullet) : bumpN hp 0 b = b := by
  cases hp <;> rfl

lemma bumpN_bumpCounter (hp : Bool) (n : Nat) (b : Bullet) :
    bumpN hp n (bumpCounter hp b) = bumpN hp (n + 1) b := by
  cases hp <;> simp [bumpN, bumpCounter] <;> omega

lemma iterCounters_notfound (bid : Nat) (hp : Bool) : ∀ (n : Nat) (st : Store),
    dictGet st.bullet_id_to_index bid = none →
    iterCounters bid hp n st = (st, true) := by
  intro n
  induction n with
  | zero => intro st _; rfl
  | succ n ih =>
    intro st h
    rw [iterCounters, updateCounters_notfound st bid hp h]
    exact ih st h

lemma iterCounters_found (bid : Nat) (hp : Bool) : ∀ (n : Nat) (st : Store)
    (idx : Nat) (b : Bullet),
    dictGet st.bullet_id_to_index bid = some idx →
    st.bullets.get? idx = some b →
    iterCounters bid hp n st
      = ({ st with bullets := st.bullets.set idx (bumpN hp n b) }, true) := by
  intro n
  induction n with
  | zero =>
    intro st idx b hmap hb
    rw [iterCounters, bumpN_zero, set_of_get? hb]
  | succ n ih =>
    intro st idx b hmap hb
    have hlt : idx < st.bullets.length := by
      by_contra hcon
      rw [List.get?_eq_none.mpr (by omega)] at hb
      cases hb
    rw [iterCounters, updateCounters_found st bid hp idx b hmap hb]
    dsimp only
    rw [ih { st with bullets := st.bullets.set idx (bumpCounter hp b) } idx
      (bumpCounter hp b) hmap
      (by dsimp only; exact List.get?_set_eq_of_lt _ hlt)]
    dsimp only
    rw [List.set_set, bumpN_bumpCounter]

lemma updateCounters_contents (st : Store) (bid : Nat) (hp : Bool)
    (fl : Bool) (st' : Store) (h : update_counters st bid hp = some (fl, st')) :
    st'.bullets.map Bullet.content = st.bullets.map Bullet.content ∧
    st'.bullet_id_to_index = st.bullet_id_to_index := by
  cases hg : dictGet st.bullet_id_to_index bid with
  | none =>
    rw [updateCounters_notfound st bid hp hg] at h
    simp only [Option.some.injEq, Prod.mk.injEq] at h
    rw [← h.2]
    exact ⟨rfl, rfl⟩
  | some idx =>
    cases hb : st.bullets.get? idx with
    | none =>
      unfold update_counters at h
      simp only [hg, hb] at h
      cases h
    | some b =>
      rw [updateCounters_found st bid hp idx b hg hb] at h
      simp only [Option.some.injEq, Prod.mk.injEq] at h
      rw [← h.2]
      exact ⟨map_content_set_same st.bullets idx b (bumpCounter hp b) hb
        (bumpCounter_content hp b), rfl⟩

lemma iterCounters_contents (bid : Nat) (hp : Bool) : ∀ (n : Nat) (st : Store),
    (iterCounters bid hp n st).1.bullets.map Bullet.content
      = st.bullets.map Bullet.content := by
  intro n
  induction n with
  | zero => intro st; rfl
  | succ n ih =>
    intro st
    rw [iterCounters]
    cases hu : update_counters st bid hp with
    | none => rfl
    | some p =>
      obtain ⟨hc, _⟩ := updateCounters_contents st bid hp p.1 p.2 (by rw [hu])
      rw [ih p.2, hc]

lemma updateCounters_inv (st : Store) (bid : Nat) (hp : Bool) (h : Inv st) :
    ∃ fl st', update_counters st bid hp = some (fl, st') ∧ Inv st' := by
  cases hg : dictGet st.bullet_id_to_index bid with
  | none => exact ⟨false, st, updateCounters_notfound st bid hp hg, h⟩
  | some idx =>
    obtain ⟨hidx, _⟩ := h.2.1 bid idx hg
    cases hb : st.bullets.get? idx with
    | none =>
      have := List.get?_eq_none.mp hb
      omega
    | some b =>
      exact ⟨true, _, updateCounters_found st bid hp idx b hg hb,
        inv_set_counters st idx b (bumpCounter hp b) hb (bumpCounter_id hp b) h⟩

lemma iterCounters_inv (bid : Nat) (hp : Bool) : ∀ (n : Nat) (st : Store),
    Inv st →
    (iterCounters bid hp n st).2 = true ∧ Inv (iterCounters bid hp n st).1 := by
  intro n
  induction n with
  | zero => intro st h; exact ⟨rfl, h⟩
  | succ n ih =>
    intro st h
    obtain ⟨fl, st', hu, hinv⟩ := updateCounters_inv st bid hp h
    rw [iterCounters, hu]
    exact ih st' hinv

end ACE

namespace ACE

lemma mergeOps_append (emb : String → List ℚ) :
    ∀ (ops1 ops2 : List DeltaOperation) (st st1 : Store),
    mergeOps emb ops1 st = (true, st1) →
    mergeOps emb (ops1 ++ ops2) st = mergeOps emb ops2 st1 := by
  intro ops1
  induction ops1 with
  | nil =>
    intro ops2 st st1 h
    simp only [mergeOps, Prod.mk.injEq, true_and] at h
    rw [List.nil_append, h]
  | cons op rest ih =>
    intro ops2 st st1 h
    rw [List.cons_append]
    rw [mergeOps] at h ⊢
    split at h
    · rename_i hA
      rw [if_pos hA]
      cases hc : op.content with
      | none =>
        rw [hc] at h
        dsimp only at h
        cases h
      | some c =>
        rw [hc] at h
        dsimp only at h ⊢
        exact ih ops2 _ st1 h
    · rename_i hA
      rw [if_neg hA]
      split at h
      · rename_i hU
        rw [if_pos hU]
        cases hb : op.bullet_id with
        | none =>
          rw [hb] at h
          dsimp only at h ⊢
          exact ih ops2 st st1 h
        | some bid =>
          rw [hb] at h
          dsimp only at h ⊢
          split at h
          · rename_i hrh
            rw [if_pos hrh]
            split at h
            · rename_i hrk
              rw [if_pos hrk]
              exact ih ops2 _ st1 h
            · cases h
          · cases h
      · rename_i hU
        rw [if_neg hU]
        exact ih ops2 st st1 h

lemma mergeOps_update_effect (emb : String → List ℚ) (st : Store)
    (bid idx h k : Nat) (b : Bullet)
    (hmap : dictGet st.bullet_id_to_index bid = some idx)
    (hb : st.bullets.get? idx = some b) :
    mergeOps emb [{ operation := "UPDATE", bullet_id := some bid,
                    content := none, section' := none,
                    helpful_increment := h, harmful_increment := k }] st
      = (true, { st with bullets := st.bullets.set idx (bumpN false k (bumpN true h b)) }) := by
  have hlt : idx < st.bullets.length := by
    by_contra hcon
    rw [List.get?_eq_none.mpr (by omega)] at hb
    cases hb
  rw [mergeOps]
  rw [if_neg (by simp), if_pos (by simp)]
  dsimp only
  rw [iterCounters_found bid true h st idx b hmap hb]
  dsimp only
  rw [if_pos rfl]
  rw [iterCounters_found bid false k
    { st with bullets := st.bullets.set idx (bumpN true h b) } idx
    (bumpN true h b) hmap
    (by dsimp only; exact List.get?_set_eq_of_lt _ hlt)]
  dsimp only
  rw [if_pos rfl]
  rw [mergeOps]
  rw [List.set_set]

lemma mergeOps_exception (emb : String → List ℚ)
    (pre post : List DeltaOperation) (op : DeltaOperation) (st st1 : Store)
    (hA : op.operation = "ADD") (hc : op.content = none)
    (hpre : mergeOps emb pre st = (true, st1)) :
    mergeOps emb (pre ++ op :: post) st = (false, st1) := by
  rw [mergeOps_append emb pre (op :: post) st st1 hpre]
  rw [mergeOps, if_pos (by rw [hA]; rfl), hc]

end ACE

namespace ACE

lemma mergeOps_success (emb : String → List ℚ) :
    ∀ (ops : List DeltaOperation) (st : Store), Inv st →
    (∀ op ∈ ops, op.operation = "ADD" → op.content ≠ none) →
    (mergeOps emb ops st).1 = true := by
  intro ops
  induction ops with
  | nil => intro st _ _; rfl
  | cons op rest ih =>
    intro st hinv hops
    rw [mergeOps]
    split
    · rename_i hA
      cases hc : op.content with
      | none =>
        exact absurd hc (hops op (by simp) (by simpa using hA))
      | some c =>
        dsimp only
        exact ih _ (inv_addBullet emb st c (orDefault op.section' "General") hinv)
          (fun o ho => hops o (List.mem_cons_of_mem op ho))
    · split
      · rename_i hU
        cases hb : op.bullet_id with
        | none =>
          dsimp only
          exact ih st hinv (fun o ho => hops o (List.mem_cons_of_mem op ho))
        | some bid =>
          dsimp only
          obtain ⟨hfl1, hinv1⟩ :=
            iterCounters_inv bid true op.helpful_increment st hinv
          rw [if_pos hfl1]
          obtain ⟨hfl2, hinv2⟩ := iterCounters_inv bid false op.harmful_increment
            (iterCounters bid true op.helpful_increment st).1 hinv1
          rw [if_pos hfl2]
          exact ih _ hinv2 (fun o ho => hops o (List.mem_cons_of_mem op ho))
      · exact ih st hinv (fun o ho => hops o (List.mem_cons_of_mem op ho))

/-- C7: Delta Merge applies operations in list order (a successfully merged
prefix acts as the start state for the rest); an UPDATE operation with
increments `h` and `k` performs `h` unit helpful-increment calls followed by
`k` unit harmful-increment calls of `update_counters`, so the target bullet
ends with helpful+h and harmful+k and nothing else changes; and when an
operation raises (an ADD whose content is `None`), the merge returns `False`
while the operations already applied before the exception remain applied and
nothing later runs (no rollback). -/
theorem merge_delta_order_units_no_rollback (emb : String → List ℚ) :
    (∀ (ops1 ops2 : List DeltaOperation) (st st1 : Store),
      mergeOps emb ops1 st = (true, st1) →
      mergeOps emb (ops1 ++ ops2) st = mergeOps emb ops2 st1)
  ∧ (∀ (st : Store) (bid idx h k : Nat) (b : Bullet),
      dictGet st.bullet_id_to_index bid = some idx →
      st.bullets.get? idx = some b →
      mergeOps emb [⟨"UPDATE", some bid, none, none, h, k⟩] st
        = (true, { st with bullets := st.bullets.set idx (bumpN false k (bumpN true h b)) }))
  ∧ (∀ (pre post : List DeltaOperation) (op : DeltaOperation) (st st1 : Store),
      op.operation = "ADD" → op.content = none →
      mergeOps emb pre st = (true, st1) →
      mergeOps emb (pre ++ op :: post) st = (false, st1)) :=
  ⟨mergeOps_append emb,
   fun st bid idx h k b hmap hb =>
     mergeOps_update_effect emb st bid idx h k b hmap hb,
   fun pre post op st st1 hA hc hpre =>
     mergeOps_exception emb pre post op st st1 hA hc hpre⟩

/-- A fixed embedding for the concrete scenarios (every text maps to the
one-dimensional unit vector). -/
def embK : String → List ℚ := fun _ => [1]

/-- A concrete store holding one bullet. -/
def b0 : Bullet := ⟨0, 0, 0, "use tools for time queries", "General"⟩

/-- A concrete one-bullet store in lockstep. -/
def st0 : Store :=
  { bullets := [b0], vecs := [[1]], bullet_id_to_index := [(0, 0)], nextId := 1 }

lemma inv_st0 : Inv st0 := by
  refine ⟨⟨rfl, ?_, by decide⟩, ?_, by decide⟩
  · intro i hi
    have hi0 : i = 0 := by
      simp only [st0, List.length_cons, List.length_nil] at hi
      omega
    subst hi0
    decide
  · intro bid idx h
    by_cases hb : bid = 0
    · subst hb
      rw [show dictGet st0.bullet_id_to_index 0 = some 0 from rfl] at h
      have hidx : idx = 0 := by
        injection h with h1
        omega
      subst hidx
      exact ⟨by decide, by decide⟩
    · have h0 : ((0 : Nat) == bid) = false := by simp; omega
      simp only [dictGet, st0, List.find?, h0] at h
      cases h

/-- Witness for C7 at a concrete store: an UPDATE with helpful_increment = 2
and harmful_increment = 1 leaves the bullet with helpful = 2 and harmful = 1,
and a None-content ADD after an empty prefix fails with the store kept. -/
theorem merge_delta_order_units_no_rollback_witness :
    (dictGet st0.bullet_id_to_index 0 = some 0 ∧
     st0.bullets.get? 0 = some b0 ∧
     mergeOps embK [⟨"UPDATE", some 0, none, none, 2, 1⟩] st0
       = (true, { st0 with bullets := st0.bullets.set 0 (bumpN false 1 (bumpN true 2 b0)) }))
  ∧ ((⟨"ADD", none, none, none, 0, 0⟩ : DeltaOperation).operation = "ADD" ∧
     mergeOps embK ([] ++ (⟨"ADD", none, none, none, 0, 0⟩ : DeltaOperation) :: []) st0
       = (false, st0)) :=
  ⟨⟨rfl, rfl,
    (merge_delta_order_units_no_rollback embK).2.1 st0 0 0 2 1 b0 rfl rfl⟩,
   ⟨rfl,
    (merge_delta_order_units_no_rollback embK).2.2 [] []
      ⟨"ADD", none, none, none, 0, 0⟩ st0 st0 rfl rfl rfl⟩⟩

/-- C10: Delta Merge returns success whenever no operation raises: the empty
delta succeeds and leaves the store unchanged; an UPDATE whose bullet id is
unknown succeeds with the store unchanged (each per-unit `update_counters`
call returns `False`, silently ignored); and on a lockstep store any
operation list whose ADDs all carry content merges with result `True`. -/
theorem merge_delta_true_unless_raise (emb : String → List ℚ) :
    (∀ (st : Store) (fid : String),
      merge_delta emb st
        { operations := [], source_feedback_id := fid, total_operations := 0 }
        = (true, st))
  ∧ (∀ (st : Store) (bid h k : Nat),
      dictGet st.bullet_id_to_index bid = none →
      mergeOps emb [⟨"UPDATE", some bid, none, none, h, k⟩] st = (true, st))
  ∧ (∀ (ops : List DeltaOperation) (st : Store), Inv st →
      (∀ op ∈ ops, op.operation = "ADD" → op.content ≠ none) →
      (mergeOps emb ops st).1 = true) := by
  refine ⟨fun st fid => rfl, ?_, mergeOps_success emb⟩
  intro st bid h k hmap
  rw [mergeOps]
  rw [if_neg (by simp), if_pos (by simp)]
  dsimp only
  rw [iterCounters_notfound bid true h st hmap]
  dsimp only
  rw [if_pos rfl]
  rw [iterCounters_notfound bid false k st hmap]
  dsimp only
  rw [if_pos rfl]
  rfl

/-- Witness for C10 at concrete inputs: the empty delta and an UPDATE aimed
at the absent id 5 both return success with the store unchanged. -/
theorem merge_delta_true_unless_raise_witness :
    merge_delta embK st0
      { operations := [], source_feedback_id := "fb", total_operations := 0 }
      = (true, st0)
  ∧ (dictGet st0.bullet_id_to_index 5 = none ∧
     mergeOps embK [⟨"UPDATE", some 5, none, none, 3, 2⟩] st0 = (true, st0))
  ∧ (mergeOps embK [⟨"ADD", none, some "a fresh strategy", none, 0, 0⟩]
       st0).1 = true :=
  ⟨(merge_delta_true_unless_raise embK).1 st0 "fb",
   ⟨rfl, (merge_delta_true_unless_raise embK).2.1 st0 5 3 2 rfl⟩,
   (merge_delta_true_unless_raise embK).2.2
     [⟨"ADD", none, some "a fresh strategy", none, 0, 0⟩] st0 inv_st0
     (by decide)⟩

end ACE

namespace ACE

lemma mergeOps_update_op_contents (emb : String → List ℚ)
    (op : DeltaOperation) (st : Store) (hop : op.operation = "UPDATE") :
    (mergeOps emb [op] st).2.bullets.map Bullet.content
      = st.bullets.map Bullet.content := by
  rw [mergeOps]
  rw [if_neg (by simp [hop]), if_pos (by simp [hop])]
  cases hb : op.bullet_id with
  | none => rfl
  | some bid =>
    dsimp only
    have c1 := iterCounters_contents bid true op.helpful_increment st
    have c2 := iterCounters_contents bid false op.harmful_increment
      (iterCounters bid true op.helpful_increment st).1
    split
    · split
      · rw [mergeOps]
        dsimp only
        rw [c2, c1]
      · dsimp only
        rw [c2, c1]
    · dsimp only
      rw [c1]

/-- The insight used in the concrete UPDATE-path scenario (confidence 0.8,
clean single-line text). -/
def ins1 : ReflectionInsight :=
  { error_identification := "", root_cause_analysis := "",
    correct_approach := "",
    key_insight := "always verify the timezone before answering",
    confidence := 4/5 }

/-- C1 counterexample: with the one-bullet store `st0` and the
confidence-0.8 insight `ins1`, the curator emits one UPDATE whose `content`
field is the freshly formatted insight text, yet after the merge the matched
bullet's content is still its old text — `merge_delta` never writes
`operation.content` for UPDATE operations, so content is NOT replaced. -/
theorem update_content_not_replaced_cex :
    ((process_insights embK st0 ins1 "fb1").operations.map
        (fun op => op.content))
      = [some "always verify the timezone before answering"]
  ∧ ((merge_delta embK st0 (process_insights embK st0 ins1 "fb1")).2.bullets.map
        Bullet.content)
      = ["use tools for time queries"]
  ∧ ("use tools for time queries" : String)
      ≠ "always verify the timezone before answering" := by
  refine ⟨by with_unfolding_all decide, by with_unfolding_all decide, by decide⟩

/-- C1 (amended): for every insight with confidence > 0.5 whose search
returns at least one candidate, the Delta holds exactly one UPDATE operation
targeting the top candidate, carrying the freshly formatted text in its
`content` field, with helpful_increment 1 exactly when confidence > 0.7; but
applying the Delta with Delta Merge only increments counters — the contents
of every bullet in the store are left unchanged. -/
theorem process_insights_update_amended (emb : String → List ℚ) (st : Store)
    (insight : ReflectionInsight) (fid : String) (best : Bullet)
    (rest : List Bullet)
    (hconf : (1 : ℚ)/2 < insight.confidence)
    (hsim : find_similar_bullets emb st insight.key_insight = best :: rest) :
    (process_insights emb st insight fid).operations
      = [{ operation := "UPDATE", bullet_id := some best.id,
           content := some (format_bullet_content insight.key_insight insight),
           section' := none,
           helpful_increment := if (7 : ℚ)/10 < insight.confidence then 1 else 0,
           harmful_increment := 0 }]
  ∧ (merge_delta emb st (process_insights emb st insight fid)).2.bullets.map
        Bullet.content
      = st.bullets.map Bullet.content := by
  have hops : (process_insights emb st insight fid).operations
      = [{ operation := "UPDATE", bullet_id := some best.id,
           content := some (format_bullet_content insight.key_insight insight),
           section' := none,
           helpful_increment := if (7 : ℚ)/10 < insight.confidence then 1 else 0,
           harmful_increment := 0 }] := by
    dsimp only [process_insights]
    rw [if_pos hconf, hsim]
  refine ⟨hops, ?_⟩
  rw [show merge_delta emb st (process_insights emb st insight fid)
        = mergeOps emb (process_insights emb st insight fid).operations st
      from rfl, hops]
  exact mergeOps_update_op_contents emb _ st rfl

/-- Witness for C1's amended theorem at the concrete scenario of the
counterexample. -/
theorem process_insights_update_amended_witness :
    ((1 : ℚ)/2 < ins1.confidence ∧
     find_similar_bullets embK st0 ins1.key_insight = b0 :: []) ∧
    (process_insights embK st0 ins1 "fb1").operations
      = [{ operation := "UPDATE", bullet_id := some b0.id,
           content := some (format_bullet_content ins1.key_insight ins1),
           section' := none, helpful_increment := 1, harmful_increment := 0 }]
  ∧ (merge_delta embK st0 (process_insights embK st0 ins1 "fb1")).2.bullets.map
        Bullet.content
      = st0.bullets.map Bullet.content := by
  have h := process_insights_update_amended embK st0 ins1 "fb1" b0 []
    (by with_unfolding_all decide) (by with_unfolding_all decide)
  refine ⟨⟨by with_unfolding_all decide, by with_unfolding_all decide⟩, ?_, h.2⟩
  rw [h.1]
  with_unfolding_all decide

end ACE

namespace ACE

/-- The insight of the C2 scenario (`"Always confirm units before
calculating."`, confidence 0.8). -/
def insC2 : ReflectionInsight :=
  { error_identification := "", root_cause_analysis := "",
    correct_approach := "",
    key_insight := "Always confirm units before calculating.",
    confidence := 4/5 }

/-- C2 counterexample: `_determine_section` sends
`"Always confirm units before calculating."` to `"General Strategies"` — the
keyword `"calculate"` is NOT a substring of `"calculating"` (`e` vs `i`), so
the Calculation Strategies branch does not fire; and the fallback label is
`"General Strategies"`, not `"General"`. -/
theorem determine_section_cex :
    determine_section insC2 = "General Strategies"
  ∧ determine_section insC2 ≠ "Calculation Strategies"
  ∧ ("General Strategies" : String) ≠ "General" := by
  refine ⟨by with_unfolding_all decide, by with_unfolding_all decide, by decide⟩

/-- C2 (amended): for an accepted insight with no search candidate, the ADD
operation's section label is exactly `_determine_section`'s first-match
keyword lookup, whose default when no keyword of the fixed ordered list
occurs in the lowercased key insight is `"General Strategies"` (not
`"General"`); the scenario text lands in this default because `"calculate"`
does not occur in `"calculating"`. -/
theorem determine_section_amended (emb : String → List ℚ) (st : Store)
    (insight : ReflectionInsight) (fid : String)
    (hconf : (1 : ℚ)/2 < insight.confidence)
    (hsim : find_similar_bullets emb st insight.key_insight = []) :
    (process_insights emb st insight fid).operations.map (fun op => op.section')
      = [some (determine_section insight)]
  ∧ ((∀ w ∈ sectionKeywords,
        strContains insight.key_insight.toLower w = false) →
      determine_section insight = "General Strategies") := by
  constructor
  · dsimp only [process_insights]
    rw [if_pos hconf, hsim]
    rfl
  · intro hnone
    have hfalse : ∀ l : List String, (∀ w ∈ l, w ∈ sectionKeywords) →
        (l.any (fun w => strContains insight.key_insight.toLower w)) = false := by
      intro l hl
      refine List.any_eq_false.mpr ?_
      intro w hw
      rw [hnone w (hl w hw)]
      simp
    unfold determine_section
    dsimp only
    rw [hfalse ["explain", "definition", "what is", "describe"]
        (by intro w hw; fin_cases hw <;> decide)]
    rw [hfalse ["calculate", "math", "compute", "solve"]
        (by intro w hw; fin_cases hw <;> decide)]
    rw [hfalse ["search", "find", "look up", "research"]
        (by intro w hw; fin_cases hw <;> decide)]
    rw [hfalse ["time", "date", "schedule"]
        (by intro w hw; fin_cases hw <;> decide)]
    rw [hfalse ["user", "personal", "individual"]
        (by intro w hw; fin_cases hw <;> decide)]
    rw [hfalse ["error", "mistake", "wrong", "incorrect"]
        (by intro w hw; fin_cases hw <;> decide)]
    rw [hfalse ["format", "structure", "organize", "bullet"]
        (by intro w hw; fin_cases hw <;> decide)]
    simp

/-- Witness for C2's amended theorem at the scenario content on the empty
store. -/
theorem determine_section_amended_witness :
    ((1 : ℚ)/2 < insC2.confidence ∧
     find_similar_bullets embK emptyStore insC2.key_insight = [] ∧
     (∀ w ∈ sectionKeywords,
        strContains insC2.key_insight.toLower w = false)) ∧
    (process_insights embK emptyStore insC2 "fb2").operations.map
        (fun op => op.section')
      = [some (determine_section insC2)]
  ∧ determine_section insC2 = "General Strategies" := by
  have h := determine_section_amended embK emptyStore insC2 "fb2"
    (by with_unfolding_all decide) rfl
  exact ⟨⟨by with_unfolding_all decide, rfl, by with_unfolding_all decide⟩,
    h.1, h.2 (by with_unfolding_all decide)⟩

end ACE

namespace ACE

/-- An insight whose error-identification text contains "success". -/
def insPos : ReflectionInsight :=
  { error_identification := "success in answering the question",
    root_cause_analysis := "", correct_approach := "follow the same steps",
    key_insight := "the approach worked", confidence := 1 }

/-- Same error-identification text as `insPos`, different key insight. -/
def insPos2 : ReflectionInsight :=
  { error_identification := "success in answering the question",
    root_cause_analysis := "", correct_approach := "other steps",
    key_insight := "a completely different takeaway", confidence := 1 }

/-- An insight whose error-identification text contains "error". -/
def insNeg : ReflectionInsight :=
  { error_identification := "error in the computation",
    root_cause_analysis := "", correct_approach := "recompute carefully",
    key_insight := "the computation failed", confidence := 1 }

/-- C3 counterexample: two pipeline runs over the SAME feedback record (same
categorical type, same rating) can take different curator paths, because
`_run_curator` dispatches on substring tests over the insight's
`error_identification` text, which the black-box reflection step is free to
vary — the path selection does not depend only on the feedback's
type/rating. -/
theorem run_curator_path_ignores_feedback_cex :
    ¬ (∀ (fb1 fb2 : FeedbackData) (i1 i2 : Option ReflectionInsight),
        fb1.feedback_type = fb2.feedback_type → fb1.rating = fb2.rating →
        run_curator_path i1 = run_curator_path i2) := by
  intro h
  have heq := h ⟨"f1", "partially_correct", some 3⟩
    ⟨"f1", "partially_correct", some 3⟩ (some insPos) (some insNeg) rfl rfl
  have hne : run_curator_path (some insPos) ≠ run_curator_path (some insNeg) := by
    with_unfolding_all decide
  exact hne heq

/-- C3 (amended): the curator path is a function of the insight's
`error_identification` text alone (two insights with the same text take the
same path, whatever the feedback record was), and `_run_curator` invokes
exactly the entry point named by that dispatch: positive path on a
"success"/"correct" substring, negative path on "error"/"wrong", and general
`process_insights` otherwise. -/
theorem run_curator_depends_on_insight_text :
    (∀ i1 i2 : ReflectionInsight,
      i1.error_identification = i2.error_identification →
      run_curator_path (some i1) = run_curator_path (some i2))
  ∧ (∀ (emb : String → List ℚ) (st : Store) (ins : ReflectionInsight)
        (fid : String),
      run_curator emb st (some ins) fid =
        match run_curator_path (some ins) with
        | CuratorPath.positiveFeedback => process_positive_feedback ins fid
        | CuratorPath.negativeFeedback => process_negative_feedback ins fid
        | _ => process_insights emb st ins fid) := by
  constructor
  · intro i1 i2 h
    obtain ⟨e1, r1, c1, k1, f1⟩ := i1
    obtain ⟨e2, r2, c2, k2, f2⟩ := i2
    simp only at h
    subst h
    rfl
  · intro emb st ins fid
    rw [run_curator, run_curator_path]
    by_cases h1 : (strContains ins.error_identification.toLower "success"
        || strContains ins.error_identification.toLower "correct") = true
    · rw [if_pos h1, if_pos h1]
    · rw [if_neg h1, if_neg h1]
      by_cases h2 : (strContains ins.error_identification.toLower "error"
          || strContains ins.error_identification.toLower "wrong") = true
      · rw [if_pos h2, if_pos h2]
      · rw [if_neg h2, if_neg h2]

/-- Witness for C3's amended theorem: two concrete insights sharing the
error-identification text take the same (positive) path, and the dispatch
sends `insPos` to `process_positive_feedback`. -/
theorem run_curator_depends_on_insight_text_witness :
    (insPos.error_identification = insPos2.error_identification ∧
     run_curator_path (some insPos) = run_curator_path (some insPos2)) ∧
    run_curator embK st0 (some insPos) "f3"
      = process_positive_feedback insPos "f3" := by
  refine ⟨⟨rfl, run_curator_depends_on_insight_text.1 insPos insPos2 rfl⟩, ?_⟩
  rw [run_curator_depends_on_insight_text.2 embK st0 insPos "f3"]
  with_unfolding_all decide

end ACE

namespace ACE

lemma updateCounters_other (st : Store) (bid bid' idx : Nat) (hp : Bool)
    (hinv : Inv st) (hmap : dictGet st.bullet_id_to_index bid = some idx)
    (hne : bid' ≠ bid) :
    ∃ fl st', update_counters st bid' hp = some (fl, st') ∧ Inv st' ∧
      st'.bullet_id_to_index = st.bullet_id_to_index ∧
      st'.bullets.get? idx = st.bullets.get? idx := by
  cases hg : dictGet st.bullet_id_to_index bid' with
  | none => exact ⟨false, st, updateCounters_notfound st bid' hp hg, hinv, rfl, rfl⟩
  | some idx' =>
    obtain ⟨hidx', hid'⟩ := hinv.2.1 bid' idx' hg
    obtain ⟨hidx, hid⟩ := hinv.2.1 bid idx hmap
    have hii : idx' ≠ idx := fun hh => hne (by rw [← hid', hh, hid])
    cases hb : st.bullets.get? idx' with
    | none =>
      have := List.get?_eq_none.mp hb
      omega
    | some b =>
      refine ⟨true, _, updateCounters_found st bid' hp idx' b hg hb,
        inv_set_counters st idx' b (bumpCounter hp b) hb (bumpCounter_id hp b)
          hinv, rfl, ?_⟩
      dsimp only
      exact List.get?_set_ne _ _ hii

lemma counterLoop_untouched (isPos isNeg : Bool) (bid idx : Nat) :
    ∀ (used : List Nat) (st : Store), Inv st →
    dictGet st.bullet_id_to_index bid = some idx →
    used.count bid = 0 →
    (counterLoop isPos isNeg used st).bullets.get? idx
      = st.bullets.get? idx := by
  intro used
  induction used with
  | nil => intro st _ _ _; rfl
  | cons bid' rest ih =>
    intro st hinv hmap hcount
    rw [List.count_cons] at hcount
    have hne : bid' ≠ bid := by
      intro hh
      subst hh
      simp at hcount
    have hrest : rest.count bid = 0 := by
      have hbb : (bid' == bid) = false := by simpa using hne
      rw [hbb] at hcount
      simpa using hcount
    rw [counterLoop]
    split
    · obtain ⟨fl, st', hu, hinv', hmapeq, hidxeq⟩ :=
        updateCounters_other st bid bid' idx true hinv hmap hne
      rw [hu]
      dsimp only
      rw [ih st' hinv' (by rw [hmapeq]; exact hmap) hrest]
      exact hidxeq
    · split
      · obtain ⟨fl, st', hu, hinv', hmapeq, hidxeq⟩ :=
          updateCounters_other st bid bid' idx false hinv hmap hne
        rw [hu]
        dsimp only
        rw [ih st' hinv' (by rw [hmapeq]; exact hmap) hrest]
        exact hidxeq
      · exact ih st hinv hmap hrest

lemma counterLoop_tracks (isPos isNeg : Bool) (bid idx : Nat) (b : Bullet) :
    ∀ (used : List Nat) (st : Store), Inv st →
    dictGet st.bullet_id_to_index bid = some idx →
    used.count bid = 1 →
    st.bullets.get? idx = some b →
    (counterLoop isPos isNeg used st).bullets.get? idx
      = some (if isPos then { b with helpful := b.helpful + 1 }
              else if isNeg then { b with harmful := b.harmful + 1 }
              else b) := by
  intro used
  induction used with
  | nil => intro st _ _ hcount _; simp at hcount
  | cons bid' rest ih =>
    intro st hinv hmap hcount hb
    rw [List.count_cons] at hcount
    have hlt : idx < st.bullets.length := by
      by_contra hcon
      rw [List.get?_eq_none.mpr (by omega)] at hb
      cases hb
    by_cases heq : bid = bid'
    · subst heq
      have hrest : rest.count bid = 0 := by
        simp only [beq_self_eq_true, if_true] at hcount
        omega
      rw [counterLoop]
      split
      · rename_i hPos
        rw [updateCounters_found st bid true idx b hmap hb]
        dsimp only
        rw [counterLoop_untouched isPos isNeg bid idx rest _
          (inv_set_counters st idx b (bumpCounter true b) hb
            (bumpCounter_id true b) hinv) hmap hrest]
        dsimp only
        rw [List.get?_set_eq_of_lt _ hlt]
        rfl
      · split
        · rename_i hPos hNeg
          rw [updateCounters_found st bid false idx b hmap hb]
          dsimp only
          rw [counterLoop_untouched isPos isNeg bid idx rest _
            (inv_set_counters st idx b (bumpCounter false b) hb
              (bumpCounter_id false b) hinv) hmap hrest]
          dsimp only
          rw [List.get?_set_eq_of_lt _ hlt]
          rfl
        · rw [counterLoop_untouched isPos isNeg bid idx rest st hinv hmap hrest]
          rw [hb]
    · have hne : bid' ≠ bid := fun hh => heq hh.symm
      have hrest : rest.count bid = 1 := by
        have hbb : (bid' == bid) = false := by simpa using hne
        rw [hbb] at hcount
        simpa using hcount
      rw [counterLoop]
      split
      · rename_i hPos
        obtain ⟨fl, st', hu, hinv', hmapeq, hidxeq⟩ :=
          updateCounters_other st bid bid' idx true hinv hmap hne
        rw [hu]
        dsimp only
        simpa [hPos] using ih st' hinv' (by rw [hmapeq]; exact hmap) hrest
          (by rw [hidxeq]; exact hb)
      · split
        · rename_i hPos hNeg
          obtain ⟨fl, st', hu, hinv', hmapeq, hidxeq⟩ :=
            updateCounters_other st bid bid' idx false hinv hmap hne
          rw [hu]
          dsimp only
          simpa [hPos, hNeg] using ih st' hinv'
            (by rw [hmapeq]; exact hmap) hrest (by rw [hidxeq]; exact hb)
        · rename_i hPos hNeg
          simpa [hPos, hNeg] using ih st hinv hmap hrest hb

end ACE

namespace ACE

/-- C8 counterexample: a feedback record with rating 5 AND categorical type
"incorrect" meets the claim's negative condition (type "incorrect"), so the
claim demands harmful+1 with helpful unchanged; the code tests the positive
condition first (rating ≥ 4) and instead increments helpful, leaving harmful
untouched. -/
theorem update_bullet_counters_precedence_cex :
    ((update_bullet_counters [0] ⟨"f1", "incorrect", some 5⟩ st0).bullets.getD
        0 default).harmful = 0
  ∧ ((update_bullet_counters [0] ⟨"f1", "incorrect", some 5⟩ st0).bullets.getD
        0 default).helpful = 1 := by
  exact ⟨by with_unfolding_all decide, by with_unfolding_all decide⟩

/-- C8 (amended): for a feedback record with a present rating and each
bullet id surfaced exactly once in the chat turn, the bullet gets exactly one
helpful increment when the feedback is net-positive (rating ≥ 4 or type
"positive"); otherwise — the positive test takes precedence — exactly one
harmful increment when net-negative (rating ≤ 2 or type "incorrect"); and no
change otherwise.  A record with no rating raises `TypeError` inside the
caught comparison, so no counter changes at all. -/
theorem update_bullet_counters_amended (st : Store) (used : List Nat)
    (fb : FeedbackData) (r : Int) (bid idx : Nat) (b : Bullet)
    (hinv : Inv st) (hr : fb.rating = some r) (hcount : used.count bid = 1)
    (hmap : dictGet st.bullet_id_to_index bid = some idx)
    (hb : st.bullets.get? idx = some b) :
    ((update_bullet_counters used fb st).bullets.get? idx
      = some (if (4 ≤ r) || (fb.feedback_type == "positive") then
                { b with helpful := b.helpful + 1 }
              else if (r ≤ 2) || (fb.feedback_type == "incorrect") then
                { b with harmful := b.harmful + 1 }
              else b))
  ∧ (∀ (fb' : FeedbackData) (used' : List Nat) (st' : Store),
      fb'.rating = none → update_bullet_counters used' fb' st' = st') := by
  constructor
  · have hempty : used.isEmpty = false := by
      cases used with
      | nil => simp at hcount
      | cons a l => rfl
    unfold update_bullet_counters
    rw [if_neg (by rw [hempty]; simp), hr]
    exact counterLoop_tracks _ _ bid idx b used st hinv hmap hcount hb
  · intro fb' used' st' hr'
    unfold update_bullet_counters
    split
    · rfl
    · rw [hr']

/-- Witness for C8's amended theorem: net-positive feedback (rating 5, type
"positive") over the concrete one-bullet store bumps helpful, and a
rating-less record changes nothing. -/
theorem update_bullet_counters_amended_witness :
    ((⟨"fw", "positive", some 5⟩ : FeedbackData).rating = some 5 ∧
     ([0] : List Nat).count 0 = 1 ∧
     dictGet st0.bullet_id_to_index 0 = some 0 ∧
     st0.bullets.get? 0 = some b0) ∧
    ((update_bullet_counters [0] ⟨"fw", "positive", some 5⟩ st0).bullets.get? 0
      = some (if ((4 : Int) ≤ 5) || (("positive" : String) == "positive") then
                { b0 with helpful := b0.helpful + 1 }
              else if ((5 : Int) ≤ 2) || (("positive" : String) == "incorrect") then
                { b0 with harmful := b0.harmful + 1 }
              else b0))
  ∧ update_bullet_counters [0] ⟨"fn", "positive", none⟩ st0 = st0 := by
  have h := update_bullet_counters_amended st0 [0] ⟨"fw", "positive", some 5⟩
    5 0 0 b0 inv_st0 rfl (by decide) rfl rfl
  exact ⟨⟨rfl, by decide, rfl, rfl⟩, h.1,
    h.2 ⟨"fn", "positive", none⟩ [0] st0 rfl⟩

end ACE
